import Mathlib

/-!
# Verification of the `alloc.c` free-list allocator

This file gives a shallow embedding of `src/alloc.c` (a user-space dynamic
memory allocator: `tumalloc`, `tucalloc`, `turealloc`, `tufree`, together
with the internal `split`, `find_prev`, `find_next`, `coalesce` and
`do_alloc`), and proves or refutes the specification claims about it.

Modelling conventions:

* A pointer is a byte address (`Nat`); the null pointer is `0`.
* Memory is modelled as cells addressed by byte offset: a map from
  addresses to block headers (`hdrs`), a map to payload bytes (`bytes`),
  and an auxiliary map of machine integers (`ints`).  The program's typed
  accesses overlap: the sentinel word an allocation writes at
  `header + sizeof(free_block) + size` (alloc.c line 201) lands exactly on
  the remainder header that `split` creates at
  `block + size + sizeof(free_block)` (alloc.c line 28), and on the LP64
  little-endian layout it occupies the low four bytes of that header's
  `size` field.  Two operation families are therefore given.  The plain
  family (`tumalloc`, `tufree`, `tucalloc`, `turealloc`) keeps sentinel
  words in the separate `ints` map; it is adequate only for executions
  whose exercised header cells and sentinel words occupy disjoint byte
  ranges, and every theorem stated over it is of that kind.  The primed
  family (`tumalloc'`, `tufree'`, `turealloc'`) stores each sentinel word
  inside the header cell at its address — `setInt32` replaces the low 32
  bits of the `size` field there, `readInt32` reads them — which
  reproduces the source's header/sentinel aliasing at header-base
  granularity (every overlapping access the program performs in the
  traces verified below targets a header base address).
* `sizeof(free_block)` and `sizeof(int)` are the constants `hdrSize` and
  `intSize`.  The header layout itself is declared in `alloc.h`, which is
  not part of the sources; following the specification's data model the
  header consists of a `size` field and a `next` link, and we fix the usual
  x86-64 value `hdrSize = 16`, `intSize = 4`.
* `sbrk` is modelled by a growing break pointer `brk` together with a limit
  `brkLimit`; a request that would push `brk` past `brkLimit` fails (models
  `sbrk` returning `(void *)-1`).
* The C `while` loops over the free list are transcribed with an explicit
  fuel argument; all theorems either use concrete states (where a concrete
  fuel suffices) or carry hypotheses bounding the list length by the fuel.
* `abort()` (the corruption path of `tufree`) is modelled by returning
  `none`.
* `do_alloc` in the source (lines 145-153) is missing the closing brace of
  its failure branch, so the statements initializing and returning the new
  header sit after `return NULL;` and are unreachable, and the file has
  unbalanced braces.  The definition below restores the evident intended
  brace placement (close the `if` after `return NULL;`), which is what the
  rest of the file and the specification rely on.
-/

/-- Size of the block header, `sizeof(free_block)`.  Modelled from the spec: `alloc.h` (the header
layout) is absent from the sources; the spec's data model gives the header
as a `size` field plus a `next` link, 16 bytes on the usual x86-64 layout. -/
def hdrSize : Nat := 16

/-- Width of the sentinel word, `sizeof(int)`. -/
def intSize : Nat := 4

/-- The sentinel value, `#define MAGIC_NUMBER 0x01234567` (alloc.c line 10). -/
def MAGIC_NUMBER : Int := 0x01234567

/-- Modulus of `size_t` arithmetic, `2^64`. -/
def W : Nat := 2 ^ 64

/-- The block header `free_block` (size in bytes, forward link; the null
link is the address `0`). -/
structure free_block where
  size : Nat
  next : Nat
deriving DecidableEq, Repr

/-- The allocator state: the three typed views of memory, the free-list
head `HEAD` (alloc.c line 12), and the `sbrk` break pointer and limit. -/
structure Heap where
  hdrs : Nat → free_block
  ints : Nat → Int
  bytes : Nat → Nat
  HEAD : Nat
  brk : Nat
  brkLimit : Nat

/-- Write the header cell at address `a`. -/
def setHdr (h : Heap) (a : Nat) (b : free_block) : Heap :=
  ⟨fun x => if x = a then b else h.hdrs x, h.ints, h.bytes, h.HEAD, h.brk, h.brkLimit⟩

/-- Write the int cell at address `a` (the sentinel writes). -/
def setInt (h : Heap) (a : Nat) (v : Int) : Heap :=
  ⟨h.hdrs, fun x => if x = a then v else h.ints x, h.bytes, h.HEAD, h.brk, h.brkLimit⟩

/-- Set the free-list head. -/
def setHEAD (h : Heap) (a : Nat) : Heap :=
  ⟨h.hdrs, h.ints, h.bytes, a, h.brk, h.brkLimit⟩

/-- Advance the break pointer. -/
def setBrk (h : Heap) (a : Nat) : Heap :=
  ⟨h.hdrs, h.ints, h.bytes, h.HEAD, a, h.brkLimit⟩

/-- Model of `memset(p, v, n)` over the byte view. -/
def memset (h : Heap) (p v n : Nat) : Heap :=
  ⟨h.hdrs, h.ints, fun a => if p ≤ a ∧ a < p + n then v else h.bytes a,
    h.HEAD, h.brk, h.brkLimit⟩

/-- Model of `memcpy(dst, src, n)` over the byte view (all reads from the pre-state,
as for non-overlapping regions in C). -/
def memcpy (h : Heap) (dst src n : Nat) : Heap :=
  ⟨h.hdrs, h.ints, fun a => if dst ≤ a ∧ a < dst + n then h.bytes (src + (a - dst)) else h.bytes a,
    h.HEAD, h.brk, h.brkLimit⟩

/-- Function `split` (alloc.c lines 21-40): split a free block into an exact-fit
front part and a remainder; returns the mutated heap and the result
pointer (`0` models the `NULL` of a failed split). -/
def split (h : Heap) (block : Nat) (size : Nat) : Heap × Nat :=
  if (h.hdrs block).size < size + hdrSize then (h, 0)
  else
    let split_pnt := block + size + hdrSize
    let new_block : free_block := ⟨(h.hdrs block).size - size - hdrSize, (h.hdrs block).next⟩
    let h1 := setHdr h split_pnt new_block
    let h2 := setHdr h1 block ⟨size, split_pnt⟩
    (h2, block)

/-- The `while` loop of `find_prev` (alloc.c lines 49-55), with fuel. -/
def find_prevAux (h : Heap) (block : Nat) : Nat → Nat → Nat
  | 0, _ => 0
  | fuel + 1, curr =>
    if curr = 0 then 0
    else if curr + (h.hdrs curr).size + hdrSize = block then curr
    else find_prevAux h block fuel (h.hdrs curr).next

/-- Function `find_prev` (alloc.c lines 48-57): scan the free list for the block
physically immediately before `block`. -/
def find_prev (fuel : Nat) (h : Heap) (block : Nat) : Nat :=
  find_prevAux h block fuel h.HEAD

/-- The `while` loop of `find_next` (alloc.c lines 69-73), with fuel. -/
def find_nextAux (h : Heap) (block_end : Nat) : Nat → Nat → Nat
  | 0, _ => 0
  | fuel + 1, curr =>
    if curr = 0 then 0
    else if curr = block_end then curr
    else find_nextAux h block_end fuel (h.hdrs curr).next

/-- Function `find_next` (alloc.c lines 65-75): scan the free list for the block
physically immediately after `block`. -/
def find_next (fuel : Nat) (h : Heap) (block : Nat) : Nat :=
  find_nextAux h (block + (h.hdrs block).size + hdrSize) fuel h.HEAD

/-- Function `coalesce` (alloc.c lines 103-137): merge `block` with its physically
previous and next free neighbors; returns the mutated heap and the pointer
to the first block of the coalesced blocks. -/
def coalesce (fuel : Nat) (h : Heap) (block : Nat) : Heap × Nat :=
  if block = 0 then (h, 0)
  else
    let prev := find_prev fuel h block
    let next := find_next fuel h block
    let s1 : Heap × Nat :=
      if prev ≠ 0 then
        if prev + (h.hdrs prev).size + hdrSize = block then
          let h1 := setHdr h prev
            ⟨(h.hdrs prev).size + (h.hdrs block).size + hdrSize, (h.hdrs prev).next⟩
          let h2 := if (h1.hdrs prev).next = block then
              setHdr h1 prev ⟨(h1.hdrs prev).size, (h1.hdrs block).next⟩
            else h1
          (h2, prev)
        else (h, block)
      else (h, block)
    let h' := s1.1
    let block' := s1.2
    if next ≠ 0 then
      if block' + (h'.hdrs block').size + hdrSize = next then
        (setHdr h' block'
          ⟨(h'.hdrs block').size + (h'.hdrs next).size + hdrSize, (h'.hdrs next).next⟩, block')
      else (h', block')
    else (h', block')

/-- Function `do_alloc` (alloc.c lines 145-153): request
`size + sizeof(free_block) + sizeof(int)` bytes from `sbrk` and initialize
a header at the returned address.  The source is missing the closing brace
of the failure branch (after `return NULL;`), making the success path dead
code; this definition restores the evident intended control flow. -/
def do_alloc (h : Heap) (size : Nat) : Heap × Nat :=
  if h.brkLimit < h.brk + (size + hdrSize + intSize) then (h, 0)
  else
    let ptr := h.brk
    let h1 := setBrk h (h.brk + (size + hdrSize + intSize))
    (setHdr h1 ptr ⟨size, 0⟩, ptr)

/-- The first-fit `while` loop of `tumalloc` (alloc.c lines 179-208), with
fuel.  Returns `some p` when the loop executes a `return` (with `p = 0`
for the `NULL` of a failed split) and `none` when the scan falls through
to the heap extension below the loop.  The sentinel store of line 201 is
modelled here as a write to the separate `ints` map, so this version is
blind to the fact that the store lands on the remainder header created by
`split`; `tumalloc_loop'` below models that aliasing. -/
def tumalloc_loop : Nat → Heap → Nat → Nat → Nat → Heap × Option Nat
  | 0, h, _, _, _ => (h, none)
  | fuel + 1, h, size, curr, prev =>
    if curr = 0 then (h, none)
    else
      if size ≤ (h.hdrs curr).size then
        if (h.hdrs curr).size < size + hdrSize then
          tumalloc_loop fuel h size (h.hdrs curr).next curr
        else
          let s := split h curr size
          let h1 := s.1
          let header := s.2
          if header = 0 then (h1, some 0)
          else
            let h2 := if prev ≠ 0 then setHdr h1 prev ⟨(h1.hdrs prev).size, (h1.hdrs curr).next⟩
                      else setHEAD h1 (h1.hdrs curr).next
            let h3 := setHdr h2 header ⟨size, (h2.hdrs header).next⟩
            let h4 := setInt h3 (header + hdrSize + size) MAGIC_NUMBER
            (h4, some (header + hdrSize))
      else
        tumalloc_loop fuel h size (h.hdrs curr).next curr

/-- Function `tumalloc` (alloc.c lines 162-221): first-fit allocation with a fall
back to heap extension.  Returns the payload pointer (`0` models `NULL`). -/
def tumalloc (fuel : Nat) (h : Heap) (size : Nat) : Heap × Nat :=
  if h.HEAD = 0 then
    let s := do_alloc h size
    if s.2 = 0 then (s.1, 0)
    else (setInt s.1 (s.2 + hdrSize + size) MAGIC_NUMBER, s.2 + hdrSize)
  else
    match tumalloc_loop fuel h size h.HEAD 0 with
    | (h1, some p) => (h1, p)
    | (h1, none) =>
      let s := do_alloc h1 size
      if s.2 = 0 then (s.1, 0)
      else (setInt s.1 (s.2 + hdrSize + size) MAGIC_NUMBER, s.2 + hdrSize)

/-- Function `tucalloc` (alloc.c lines 231-238): `size_t total_size = num * size`
(fixed-width product, no overflow guard), delegate to `tumalloc`, and
zero-fill the returned region on success only. -/
def tucalloc (fuel : Nat) (h : Heap) (num size : Nat) : Heap × Nat :=
  let total_size := num * size % W
  let s := tumalloc fuel h total_size
  if s.2 ≠ 0 then (memset s.1 s.2 0 total_size, s.2)
  else s

/-- Function `tufree` (alloc.c lines 270-289): validate the sentinel, push the
block onto the front of the free list and coalesce.  `none` models
`abort()` on a corrupted sentinel. -/
def tufree (fuel : Nat) (h : Heap) (ptr : Nat) : Option Heap :=
  if ptr = 0 then some h
  else
    let header := ptr - hdrSize
    if h.ints (header + hdrSize + (h.hdrs header).size) = MAGIC_NUMBER then
      let h1 := setHdr h header ⟨(h.hdrs header).size, h.HEAD⟩
      let h2 := setHEAD h1 header
      some (coalesce fuel h2 header).1
    else
      none

/-- Function `turealloc` (alloc.c lines 247-262).  `none` models the `abort()`
reachable through the `tufree` call. -/
def turealloc (fuel : Nat) (h : Heap) (ptr : Nat) (new_size : Nat) : Option (Heap × Nat) :=
  if ptr = 0 then some (tumalloc fuel h new_size)
  else
    let header := ptr - hdrSize
    if new_size ≤ (h.hdrs header).size then some (h, ptr)
    else
      let s := tumalloc fuel h new_size
      let h1 := s.1
      let new_ptr := s.2
      if new_ptr = 0 then some (h1, 0)
      else
        let h2 := memcpy h1 new_ptr ptr (h1.hdrs header).size
        match tufree fuel h2 ptr with
        | some h3 => some (h3, new_ptr)
        | none => none

/-- The free list as traversed by the C loops: the addresses reachable
from `a` through the `next` links, truncated at `fuel` steps. -/
def freeListFrom (h : Heap) : Nat → Nat → List Nat
  | 0, _ => []
  | fuel + 1, a => if a = 0 then [] else a :: freeListFrom h fuel (h.hdrs a).next

/-- The free list of the heap, truncated at `fuel` entries. -/
def freeList (fuel : Nat) (h : Heap) : List Nat :=
  freeListFrom h fuel h.HEAD

/-- Predicate `isChain h a l`: starting from pointer `a` and following the `next`
links, one traverses exactly the (null-terminated) list of addresses `l`.
This is the exact, fuel-free description of the free list. -/
def isChain (h : Heap) : Nat → List Nat → Bool
  | a, [] => a == 0
  | a, x :: l => a == x && x != 0 && isChain h (h.hdrs x).next l

/-- The empty initial heap: no free list, break at 4096. -/
def emptyHeap : Heap :=
  ⟨fun _ => ⟨0, 0⟩, fun _ => 0, fun _ => 7, 0, 4096, 1000000⟩

/-- Concrete state for claim C1: the free list holds the single block at
address 1000 (payload 10 bytes); the block at address 1026 (payload 10
bytes, sentinel intact at 1052) is allocated and physically follows it
(1000 + 10 + 16 = 1026). -/
def H0 : Heap :=
  ⟨fun a => if a = 1000 then ⟨10, 0⟩ else if a = 1026 then ⟨10, 0⟩ else ⟨0, 0⟩,
   fun a => if a = 1052 then MAGIC_NUMBER else 0,
   fun _ => 7, 1000, 3000, 3000⟩

/-- Observations on the heap reached from `H0` by releasing the block at
1026: the size and link of header 1000, the list head, the link of header
1026, and the free list itself. -/
def H0obs (h : Heap) : Nat × Nat × Nat × List Nat :=
  ((h.hdrs 1000).size, h.HEAD, (h.hdrs 1026).next, freeList 10 h)

/-- Observations for the witness of the amended claim C1: header 1000,
the list head, the link of header 1026, and the free list. -/
def C1obs (h : Heap) : free_block × Nat × Nat × List Nat :=
  (h.hdrs 1000, h.HEAD, (h.hdrs 1026).next, freeList 10 h)

/-- Concrete state for claim C8: empty free list, break at 1000, enough
`sbrk` headroom for a `2^32`-byte block; every unwritten byte reads 7. -/
def H8 : Heap := ⟨fun _ => ⟨0, 0⟩, fun _ => 0, fun _ => 7, 0, 1000, 2 ^ 40⟩

/-- Concrete state for claim C5: the free list is [2000, 1000]; block
2000 has size 10 (an exact match for a request of 10, which must be
skipped), block 1000 has size 50 (sufficient excess for a split). -/
def HC5 : Heap :=
  ⟨fun a => if a = 2000 then ⟨10, 1000⟩ else if a = 1000 then ⟨50, 0⟩ else ⟨0, 0⟩,
   fun _ => 0, fun _ => 7, 2000, 3000, 100000⟩

/-- Concrete state where `sbrk` always fails: the break is already at the
limit. -/
def HFull : Heap := ⟨fun _ => ⟨0, 0⟩, fun _ => 0, fun _ => 7, 0, 4096, 4096⟩

/-! ## The aliasing-faithful primed operation family

On the LP64 little-endian layout, `sizeof(free_block) = 16` with the
`size` member in the low eight bytes of the struct.  The sentinel word an
allocation writes at `header + sizeof(free_block) + size` (alloc.c lines
171, 201 and 218) therefore lands, whenever a header cell sits at that
address, on the low four bytes of the `size` field of that header — and
`split` places the remainder header at `block + size + sizeof(free_block)`
(alloc.c line 28), which is exactly that address for the block being
handed out.  The primed operations below repeat the plain definitions
with the sentinel accesses routed through `setInt32` and `readInt32`,
which realise the overlap at header-base granularity: every overlapping
access the program performs in the traces verified below targets a
header base address. -/

def W32 : Nat := 2 ^ 32

/-- The sentinel constant read back as an unsigned 32-bit word. -/
def MAGIC_NAT : Nat := 0x01234567

/-- Reading `*(int *)a` where a header cell sits at `a`: the low 32 bits
of the `size` field of that header. -/
def readInt32 (h : Heap) (a : Nat) : Nat := (h.hdrs a).size % W32

/-- Writing `*(int *)a = v` where a header cell sits at `a`: replace the
low 32 bits of the `size` field of that header, leaving its high bits
and the `next` member alone. -/
def setInt32 (h : Heap) (a : Nat) (v : Nat) : Heap :=
  setHdr h a ⟨(h.hdrs a).size - (h.hdrs a).size % W32 + v, (h.hdrs a).next⟩

/-- The first-fit loop of `tumalloc` with the sentinel store of alloc.c
line 201 routed through `setInt32`: the store lands on the header cell at
`header + hdrSize + size`, which is where `split` has just written the
remainder header. -/
def tumalloc_loop' : Nat → Heap → Nat → Nat → Nat → Heap × Option Nat
  | 0, h, _, _, _ => (h, none)
  | fuel + 1, h, size, curr, prev =>
    if curr = 0 then (h, none)
    else
      if size ≤ (h.hdrs curr).size then
        if (h.hdrs curr).size < size + hdrSize then
          tumalloc_loop' fuel h size (h.hdrs curr).next curr
        else
          let s := split h curr size
          let h1 := s.1
          let header := s.2
          if header = 0 then (h1, some 0)
          else
            let h2 := if prev ≠ 0 then setHdr h1 prev ⟨(h1.hdrs prev).size, (h1.hdrs curr).next⟩
                      else setHEAD h1 (h1.hdrs curr).next
            let h3 := setHdr h2 header ⟨size, (h2.hdrs header).next⟩
            let h4 := setInt32 h3 (header + hdrSize + size) MAGIC_NAT
            (h4, some (header + hdrSize))
      else
        tumalloc_loop' fuel h size (h.hdrs curr).next curr

/-- Function `tumalloc` (alloc.c lines 162-221) with the sentinel stores
of lines 171, 201 and 218 routed through `setInt32`. -/
def tumalloc' (fuel : Nat) (h : Heap) (size : Nat) : Heap × Nat :=
  if h.HEAD = 0 then
    let s := do_alloc h size
    if s.2 = 0 then (s.1, 0)
    else (setInt32 s.1 (s.2 + hdrSize + size) MAGIC_NAT, s.2 + hdrSize)
  else
    match tumalloc_loop' fuel h size h.HEAD 0 with
    | (h1, some p) => (h1, p)
    | (h1, none) =>
      let s := do_alloc h1 size
      if s.2 = 0 then (s.1, 0)
      else (setInt32 s.1 (s.2 + hdrSize + size) MAGIC_NAT, s.2 + hdrSize)

/-- Function `tufree` (alloc.c lines 270-289) with the sentinel check of
line 278 reading through `readInt32`, so the check sees what the header
view holds at the sentinel address. -/
def tufree' (fuel : Nat) (h : Heap) (ptr : Nat) : Option Heap :=
  if ptr = 0 then some h
  else
    let header := ptr - hdrSize
    if readInt32 h (header + hdrSize + (h.hdrs header).size) = MAGIC_NAT then
      let h1 := setHdr h header ⟨(h.hdrs header).size, h.HEAD⟩
      let h2 := setHEAD h1 header
      some (coalesce fuel h2 header).1
    else none

/-- Function `turealloc` (alloc.c lines 247-262) delegating to the primed
allocation and release. -/
def turealloc' (fuel : Nat) (h : Heap) (ptr new_size : Nat) : Option (Heap × Nat) :=
  if ptr = 0 then some (tumalloc' fuel h new_size)
  else
    let header := ptr - hdrSize
    if new_size ≤ (h.hdrs header).size then some (h, ptr)
    else
      let s := tumalloc' fuel h new_size
      if s.2 = 0 then some (s.1, 0)
      else
        let h2 := memcpy s.1 s.2 ptr ((s.1.hdrs header).size)
        match tufree' fuel h2 ptr with
        | some h3 => some (h3, s.2)
        | none => none

/-- The heap after the mutation the primed `tumalloc` loop performs at a
found candidate `c` (split, re-link of the list predecessor `p` — `p = 0`
when `c` is the list head — exact-fit size write, and the sentinel write
through `setInt32`, which lands on the remainder header). -/
def allocFound' (h : Heap) (c size p : Nat) : Heap :=
  let s := split h c size
  let h1 := s.1
  let h2 := if p ≠ 0 then setHdr h1 p ⟨(h1.hdrs p).size, (h1.hdrs c).next⟩
            else setHEAD h1 (h1.hdrs c).next
  let h3 := setHdr h2 c ⟨size, (h2.hdrs c).next⟩
  setInt32 h3 (c + hdrSize + size) MAGIC_NAT

/-- Concrete state for the witness of claim C10: one allocated block at
1000 (payload 10, sentinel intact at 1026 = 1000 + 16 + 10) and an empty
free list.  The state is byte-consistent across the two views: the
sentinel word occupies the low four bytes of the header cell at 1026, so
the `size` field of that cell reads `19088743 = 0x01234567`, the same
value `ints 1026` holds. -/
def HFrame : Heap :=
  ⟨fun a => if a = 1000 then ⟨10, 0⟩ else if a = 1026 then ⟨19088743, 0⟩ else ⟨0, 0⟩,
   fun a => if a = 1026 then MAGIC_NUMBER else 0,
   fun _ => 7, 0, 2000, 100000⟩

/-- Observation for the witness of claim C10: the recorded size of block
1000 after releasing it in `HFrame`. -/
def C10obs : Option Nat := (tufree 10 HFrame 1016).map fun s => (s.hdrs 1000).size

/-- The six-call trace for claim C3, over the primed operations, from the
empty heap: `p1 = tumalloc(100); p2 = tumalloc(74); tufree(p1);
p3 = tumalloc(10); tufree(p2); tumalloc(78)`.  The returned pointers are
`p1 = 4112`, `p2 = 4232`, `p3 = 4112`. -/
def C3state : Option Heap :=
  let r1 := tumalloc' 20 emptyHeap 100
  let r2 := tumalloc' 20 r1.1 74
  (tufree' 20 r2.1 r1.2).bind fun s3 =>
  let r4 := tumalloc' 20 s3 10
  (tufree' 20 r4.1 r2.2).bind fun s5 =>
  some (tumalloc' 20 s5 78).1

/-- Observation for claim C3 on the final state of `C3state`: the
free-list head, the size and link of header 4216, and the fuel-3
free-list traversal. -/
def C3obs : Option (Nat × Nat × Nat × List Nat) :=
  C3state.map fun s => (s.HEAD, (s.hdrs 4216).size, (s.hdrs 4216).next, freeList 3 s)

/-- The three-call prefix of the trace for claim C6, over the primed
operations, from the empty heap: `p = tumalloc(36); tufree(p);
q = tumalloc(10)`; both returned pointers are 4112. -/
def C6pre : Option Heap :=
  let r1 := tumalloc' 20 emptyHeap 36
  (tufree' 20 r1.1 r1.2).bind fun s2 => some (tumalloc' 20 s2 10).1

/-- Observation for claim C6 on the state of `C6pre`: the recorded size
of header 4096 (the block at payload pointer 4112), the free-list head,
and the size field of the free block at 4122 — the remainder of the last
split, whose low bits the sentinel store overwrote. -/
def C6obs : Option (Nat × Nat × Nat) :=
  C6pre.map fun s => ((s.hdrs 4096).size, s.HEAD, (s.hdrs 4122).size)

/-- The realloc step of the claim C6 trace: growing the 10-byte block at
payload pointer 4112 to 20 bytes. -/
def C6run : Option (Heap × Nat) := C6pre.bind fun s => turealloc' 20 s 4112 20

/-- The four-call trace for claim C7, over the primed operations, from
the empty heap: `tumalloc(100); tufree of it; a = tumalloc(10);
b = tumalloc(10)` — producing two allocated, physically adjacent blocks
with headers 4096 and 4122 = 4096 + 10 + hdrSize (payload pointers 4112
and 4138). -/
def C7pre : Option Heap :=
  let r1 := tumalloc' 20 emptyHeap 100
  (tufree' 20 r1.1 r1.2).bind fun s2 =>
  let r3 := tumalloc' 20 s2 10
  some (tumalloc' 20 r3.1 10).1

/-- Observation for claim C7 on the state of `C7pre`: the sizes recorded
at the two adjacent headers 4096 and 4122, the free-list head, and the
fuel-5 free list. -/
def C7obs : Option (Nat × Nat × Nat × List Nat) :=
  C7pre.map fun s => ((s.hdrs 4096).size, (s.hdrs 4122).size, s.HEAD, freeList 5 s)

/-- Releasing the first adjacent block of `C7pre`. -/
def C7freeA : Option Heap := C7pre.bind fun s => tufree' 20 s 4112

/-- Releasing the second, then the first adjacent block of `C7pre`. -/
def C7freeBA : Option Heap :=
  C7pre.bind fun s => (tufree' 20 s 4138).bind fun t => tufree' 20 t 4112

/-! ## Basic laws of the state operations -/

@[simp] theorem setHdr_hdrs (h : Heap) (a : Nat) (b : free_block) (x : Nat) :
    (setHdr h a b).hdrs x = if x = a then b else h.hdrs x := rfl

@[simp] theorem setHdr_ints (h : Heap) (a : Nat) (b : free_block) : (setHdr h a b).ints = h.ints := rfl

@[simp] theorem setHdr_bytes (h : Heap) (a : Nat) (b : free_block) : (setHdr h a b).bytes = h.bytes := rfl

@[simp] theorem setHdr_HEAD (h : Heap) (a : Nat) (b : free_block) : (setHdr h a b).HEAD = h.HEAD := rfl

@[simp] theorem setHdr_brk (h : Heap) (a : Nat) (b : free_block) : (setHdr h a b).brk = h.brk := rfl

@[simp] theorem setHdr_brkLimit (h : Heap) (a : Nat) (b : free_block) :
    (setHdr h a b).brkLimit = h.brkLimit := rfl

@[simp] theorem setInt_hdrs (h : Heap) (a : Nat) (v : Int) : (setInt h a v).hdrs = h.hdrs := rfl

@[simp] theorem setInt_ints (h : Heap) (a : Nat) (v : Int) (x : Nat) :
    (setInt h a v).ints x = if x = a then v else h.ints x := rfl

@[simp] theorem setInt_bytes (h : Heap) (a : Nat) (v : Int) : (setInt h a v).bytes = h.bytes := rfl

@[simp] theorem setInt_HEAD (h : Heap) (a : Nat) (v : Int) : (setInt h a v).HEAD = h.HEAD := rfl

@[simp] theorem setInt_brk (h : Heap) (a : Nat) (v : Int) : (setInt h a v).brk = h.brk := rfl

@[simp] theorem setHEAD_hdrs (h : Heap) (a : Nat) : (setHEAD h a).hdrs = h.hdrs := rfl

@[simp] theorem setHEAD_ints (h : Heap) (a : Nat) : (setHEAD h a).ints = h.ints := rfl

@[simp] theorem setHEAD_bytes (h : Heap) (a : Nat) : (setHEAD h a).bytes = h.bytes := rfl

@[simp] theorem setHEAD_HEAD (h : Heap) (a : Nat) : (setHEAD h a).HEAD = a := rfl

@[simp] theorem setHEAD_brk (h : Heap) (a : Nat) : (setHEAD h a).brk = h.brk := rfl

@[simp] theorem setBrk_hdrs (h : Heap) (a : Nat) : (setBrk h a).hdrs = h.hdrs := rfl

@[simp] theorem setBrk_HEAD (h : Heap) (a : Nat) : (setBrk h a).HEAD = h.HEAD := rfl

@[simp] theorem setBrk_brk (h : Heap) (a : Nat) : (setBrk h a).brk = a := rfl

@[simp] theorem memset_bytes (h : Heap) (p v n a : Nat) :
    (memset h p v n).bytes a = if p ≤ a ∧ a < p + n then v else h.bytes a := rfl

@[simp] theorem memcpy_hdrs (h : Heap) (dst src n : Nat) : (memcpy h dst src n).hdrs = h.hdrs := rfl

@[simp] theorem memcpy_ints (h : Heap) (dst src n : Nat) : (memcpy h dst src n).ints = h.ints := rfl

@[simp] theorem memcpy_HEAD (h : Heap) (dst src n : Nat) : (memcpy h dst src n).HEAD = h.HEAD := rfl

@[simp] theorem memcpy_bytes (h : Heap) (dst src n a : Nat) :
    (memcpy h dst src n).bytes a =
      if dst ≤ a ∧ a < dst + n then h.bytes (src + (a - dst)) else h.bytes a := rfl

theorem find_prevAux_succ (h : Heap) (block fuel curr : Nat) :
    find_prevAux h block (fuel + 1) curr =
      if curr = 0 then 0
      else if curr + (h.hdrs curr).size + hdrSize = block then curr
      else find_prevAux h block fuel (h.hdrs curr).next := rfl

theorem find_nextAux_succ (h : Heap) (block_end fuel curr : Nat) :
    find_nextAux h block_end (fuel + 1) curr =
      if curr = 0 then 0
      else if curr = block_end then curr
      else find_nextAux h block_end fuel (h.hdrs curr).next := rfl

theorem freeListFrom_succ (h : Heap) (fuel a : Nat) :
    freeListFrom h (fuel + 1) a = if a = 0 then [] else a :: freeListFrom h fuel (h.hdrs a).next := rfl

/-- Reading the free list in two heaps whose headers have the same `next`
links along the list gives the same list. -/
theorem isChain_ext (h h' : Heap) (l : List Nat) :
    (∀ x ∈ l, (h'.hdrs x).next = (h.hdrs x).next) →
    ∀ a, isChain h a l = true → isChain h' a l = true := by
  induction l with
  | nil => intro _ a ha; exact ha
  | cons x l ih =>
    intro hag a ha
    simp only [isChain, Bool.and_eq_true, beq_iff_eq, bne_iff_ne, ne_eq] at ha ⊢
    obtain ⟨⟨heq, hx0⟩, hrest⟩ := ha
    refine ⟨⟨heq, hx0⟩, ?_⟩
    rw [hag x (List.mem_cons_self x l)]
    exact ih (fun y hy => hag y (List.mem_cons_of_mem x hy)) _ hrest

/-- Every address on a chain is nonzero. -/
theorem isChain_ne_zero (h : Heap) (l : List Nat) :
    ∀ a, isChain h a l = true → ∀ x ∈ l, x ≠ 0 := by
  induction l with
  | nil => intro a _ x hx; cases hx
  | cons y l ih =>
    intro a ha x hx
    simp only [isChain, Bool.and_eq_true, beq_iff_eq, bne_iff_ne, ne_eq] at ha
    obtain ⟨⟨rfl, hy0⟩, hrest⟩ := ha
    rcases List.mem_cons.mp hx with rfl | hx
    · exact hy0
    · exact ih _ hrest x hx

/-- A chain is the fuel-truncated traversal, once the fuel exceeds its
length. -/
theorem isChain_freeListFrom (h : Heap) (l : List Nat) :
    ∀ a fuel, isChain h a l = true → l.length < fuel → freeListFrom h fuel a = l := by
  induction l with
  | nil =>
    intro a fuel ha hf
    cases fuel with
    | zero => omega
    | succ f =>
      simp only [isChain, beq_iff_eq] at ha
      simp [freeListFrom_succ, ha]
  | cons x l ih =>
    intro a fuel ha hf
    cases fuel with
    | zero => simp at hf
    | succ f =>
      simp only [isChain, Bool.and_eq_true, beq_iff_eq, bne_iff_ne, ne_eq] at ha
      obtain ⟨⟨heq, hx0⟩, hrest⟩ := ha
      simp only [List.length_cons] at hf
      rw [heq, freeListFrom_succ, if_neg hx0, ih _ f hrest (by omega)]

/-- The scan of `find_prev` finds nothing when no chain element is
physically immediately before `block`. -/
theorem find_prevAux_none (h : Heap) (block : Nat) (l : List Nat) :
    ∀ a fuel, isChain h a l = true → l.length < fuel →
    (∀ x ∈ l, x + (h.hdrs x).size + hdrSize ≠ block) →
    find_prevAux h block fuel a = 0 := by
  induction l with
  | nil =>
    intro a fuel ha hf _
    cases fuel with
    | zero => rfl
    | succ f =>
      simp only [isChain, beq_iff_eq] at ha
      simp [find_prevAux_succ, ha]
  | cons x l ih =>
    intro a fuel ha hf hcond
    cases fuel with
    | zero => simp at hf
    | succ f =>
      simp only [isChain, Bool.and_eq_true, beq_iff_eq, bne_iff_ne, ne_eq] at ha
      obtain ⟨⟨heq, hx0⟩, hrest⟩ := ha
      simp only [List.length_cons] at hf
      rw [heq, find_prevAux_succ, if_neg hx0, if_neg (hcond x (List.mem_cons_self x l))]
      exact ih _ f hrest (by omega) (fun y hy => hcond y (List.mem_cons_of_mem x hy))

/-- The scan of `find_next` finds nothing when no chain element sits at
`block_end`. -/
theorem find_nextAux_none (h : Heap) (block_end : Nat) (l : List Nat) :
    ∀ a fuel, isChain h a l = true → l.length < fuel →
    (∀ x ∈ l, x ≠ block_end) →
    find_nextAux h block_end fuel a = 0 := by
  induction l with
  | nil =>
    intro a fuel ha hf _
    cases fuel with
    | zero => rfl
    | succ f =>
      simp only [isChain, beq_iff_eq] at ha
      simp [find_nextAux_succ, ha]
  | cons x l ih =>
    intro a fuel ha hf hcond
    cases fuel with
    | zero => simp at hf
    | succ f =>
      simp only [isChain, Bool.and_eq_true, beq_iff_eq, bne_iff_ne, ne_eq] at ha
      obtain ⟨⟨heq, hx0⟩, hrest⟩ := ha
      simp only [List.length_cons] at hf
      rw [heq, find_nextAux_succ, if_neg hx0, if_neg (hcond x (List.mem_cons_self x l))]
      exact ih _ f hrest (by omega) (fun y hy => hcond y (List.mem_cons_of_mem x hy))

/-- Function `coalesce` never moves the list head. -/
theorem coalesce_HEAD (fuel : Nat) (h : Heap) (b : Nat) :
    ((coalesce fuel h b).1).HEAD = h.HEAD := by
  unfold coalesce
  split
  · rfl
  · dsimp only
    split_ifs <;> rfl

/-- Function `coalesce` never touches the byte view. -/
theorem coalesce_bytes (fuel : Nat) (h : Heap) (b : Nat) :
    ((coalesce fuel h b).1).bytes = h.bytes := by
  unfold coalesce
  split
  · rfl
  · dsimp only
    split_ifs <;> rfl

/-- Function `coalesce` never touches the sentinel words. -/
theorem coalesce_ints (fuel : Nat) (h : Heap) (b : Nat) :
    ((coalesce fuel h b).1).ints = h.ints := by
  unfold coalesce
  split
  · rfl
  · dsimp only
    split_ifs <;> rfl

/-- Step equation for the first-fit loop of `tumalloc`. -/
theorem tumalloc_loop_succ (f : Nat) (h : Heap) (size curr prev : Nat) :
    tumalloc_loop (f + 1) h size curr prev =
      if curr = 0 then (h, none)
      else
        if size ≤ (h.hdrs curr).size then
          if (h.hdrs curr).size < size + hdrSize then
            tumalloc_loop f h size (h.hdrs curr).next curr
          else
            let s := split h curr size
            let h1 := s.1
            let header := s.2
            if header = 0 then (h1, some 0)
            else
              let h2 := if prev ≠ 0 then setHdr h1 prev ⟨(h1.hdrs prev).size, (h1.hdrs curr).next⟩
                        else setHEAD h1 (h1.hdrs curr).next
              let h3 := setHdr h2 header ⟨size, (h2.hdrs header).next⟩
              let h4 := setInt h3 (header + hdrSize + size) MAGIC_NUMBER
              (h4, some (header + hdrSize))
        else
          tumalloc_loop f h size (h.hdrs curr).next curr := rfl

/-- When the first-fit loop does not hand out a block (it falls through,
or the defensive split-failure path fires), it leaves the heap unchanged. -/
theorem tumalloc_loop_fail : ∀ (fuel : Nat) (h : Heap) (size curr prev : Nat),
    (tumalloc_loop fuel h size curr prev).2 = none ∨
      (tumalloc_loop fuel h size curr prev).2 = some 0 →
    (tumalloc_loop fuel h size curr prev).1 = h := by
  intro fuel
  induction fuel with
  | zero => intro h size curr prev _; rfl
  | succ f ih =>
    intro h size curr prev hres
    rw [tumalloc_loop_succ] at hres ⊢
    by_cases hc : curr = 0
    · rw [if_pos hc]
    · rw [if_neg hc] at hres ⊢
      by_cases hsz : size ≤ (h.hdrs curr).size
      · rw [if_pos hsz] at hres ⊢
        by_cases hex : (h.hdrs curr).size < size + hdrSize
        · rw [if_pos hex] at hres ⊢
          exact ih h size (h.hdrs curr).next curr hres
        · rw [if_neg hex] at hres ⊢
          have hsplit : split h curr size =
              (setHdr (setHdr h (curr + size + hdrSize)
                  ⟨(h.hdrs curr).size - size - hdrSize, (h.hdrs curr).next⟩)
                curr ⟨size, curr + size + hdrSize⟩, curr) := by
            rw [split, if_neg hex]
          rw [hsplit] at hres ⊢
          dsimp only at hres ⊢
          rw [if_neg hc] at hres ⊢
          rcases hres with hres | hres
          · exact absurd hres (by simp)
          · simp only [Option.some.injEq] at hres
            exact absurd hres (by simp [hdrSize])
      · rw [if_neg hsz] at hres ⊢
        exact ih h size (h.hdrs curr).next curr hres

/-- Unfolded form of `tumalloc`. -/
theorem tumalloc_eq (fuel : Nat) (h : Heap) (size : Nat) :
    tumalloc fuel h size =
      if h.HEAD = 0 then
        (if (do_alloc h size).2 = 0 then ((do_alloc h size).1, 0)
         else (setInt (do_alloc h size).1 ((do_alloc h size).2 + hdrSize + size) MAGIC_NUMBER,
               (do_alloc h size).2 + hdrSize))
      else
        (match tumalloc_loop fuel h size h.HEAD 0 with
         | (h1, some p) => (h1, p)
         | (h1, none) =>
           if (do_alloc h1 size).2 = 0 then ((do_alloc h1 size).1, 0)
           else (setInt (do_alloc h1 size).1 ((do_alloc h1 size).2 + hdrSize + size) MAGIC_NUMBER,
                 (do_alloc h1 size).2 + hdrSize)) := rfl

/-- When `tumalloc` reports failure it leaves the heap unchanged
(`0 < brk` rules out the degenerate heap whose break is the null
address). -/
theorem tumalloc_fail_eq (fuel : Nat) (h : Heap) (size : Nat) (hbrk : 0 < h.brk)
    (hfail : (tumalloc fuel h size).2 = 0) : (tumalloc fuel h size).1 = h := by
  have h16 : hdrSize = 16 := rfl
  rw [tumalloc_eq] at hfail ⊢
  by_cases hh : h.HEAD = 0
  · rw [if_pos hh] at hfail ⊢
    by_cases hlim : h.brkLimit < h.brk + (size + hdrSize + intSize)
    · have hda : do_alloc h size = (h, 0) := by rw [do_alloc, if_pos hlim]
      rw [hda, if_pos rfl]
    · have hda2 : (do_alloc h size).2 = h.brk := by rw [do_alloc, if_neg hlim]
      have hne : ¬((do_alloc h size).2 = 0) := by rw [hda2]; omega
      rw [if_neg hne] at hfail
      have hz : (do_alloc h size).2 + hdrSize = 0 := hfail
      rw [hda2] at hz
      exfalso
      omega
  · rw [if_neg hh] at hfail ⊢
    generalize hlp : tumalloc_loop fuel h size h.HEAD 0 = r at hfail ⊢
    obtain ⟨h1, o⟩ := r
    cases o with
    | some p =>
      have hp : p = 0 := hfail
      have hfst := tumalloc_loop_fail fuel h size h.HEAD 0 (Or.inr (by rw [hlp, hp]))
      rw [hlp] at hfst
      exact hfst
    | none =>
      have h1h : h1 = h := by
        have := tumalloc_loop_fail fuel h size h.HEAD 0 (Or.inl (by rw [hlp]))
        rw [hlp] at this
        exact this
      rw [h1h] at hfail ⊢
      change (if (do_alloc h size).2 = 0 then ((do_alloc h size).1, 0)
        else (setInt (do_alloc h size).1 ((do_alloc h size).2 + hdrSize + size) MAGIC_NUMBER,
              (do_alloc h size).2 + hdrSize)).2 = 0 at hfail
      change (if (do_alloc h size).2 = 0 then ((do_alloc h size).1, 0)
        else (setInt (do_alloc h size).1 ((do_alloc h size).2 + hdrSize + size) MAGIC_NUMBER,
              (do_alloc h size).2 + hdrSize)).1 = h
      by_cases hlim : h.brkLimit < h.brk + (size + hdrSize + intSize)
      · have hda : do_alloc h size = (h, 0) := by rw [do_alloc, if_pos hlim]
        rw [hda, if_pos rfl]
      · have hda2 : (do_alloc h size).2 = h.brk := by rw [do_alloc, if_neg hlim]
        have hne : ¬((do_alloc h size).2 = 0) := by rw [hda2]; omega
        rw [if_neg hne] at hfail
        have hz : (do_alloc h size).2 + hdrSize = 0 := hfail
        rw [hda2] at hz
        exfalso
        omega

/-- Claim C2: intended behavior of the Heap Extender — when the OS
heap-growth primitive succeeds, `do_alloc` initializes a new header at the
returned address with `size` set to the requested payload size and `next`
cleared and returns it; when the primitive fails it returns a null result
and leaves the heap untouched (no abort).  This is proved of the modelled
`do_alloc`, whose definition restores the closing brace that the C source
drops after `return NULL;` (see the doc comment on `do_alloc`): as
written, the C success path is dead code, so the claim is settled as a
code bug against the evident intent. -/
theorem do_alloc_spec (h : Heap) (size : Nat) :
    (h.brk + (size + hdrSize + intSize) ≤ h.brkLimit →
      (do_alloc h size).2 = h.brk ∧
      (do_alloc h size).1.hdrs h.brk = ⟨size, 0⟩ ∧
      (do_alloc h size).1.brk = h.brk + (size + hdrSize + intSize) ∧
      (do_alloc h size).1.HEAD = h.HEAD)
    ∧ (h.brkLimit < h.brk + (size + hdrSize + intSize) → do_alloc h size = (h, 0)) := by
  constructor
  · intro hle
    rw [do_alloc, if_neg (by omega)]
    refine ⟨rfl, ?_, rfl, rfl⟩
    simp
  · intro hlt
    rw [do_alloc, if_pos hlt]

/-- Witness for `do_alloc_spec`: a successful extension from the empty
heap and a failing extension from the exhausted heap. -/
theorem do_alloc_spec_witness :
    (do_alloc emptyHeap 10).2 = 4096 ∧
    (do_alloc emptyHeap 10).1.hdrs 4096 = ⟨10, 0⟩ ∧
    do_alloc HFull 10 = (HFull, 0) := by
  refine ⟨((do_alloc_spec emptyHeap 10).1 (by decide)).1,
    ((do_alloc_spec emptyHeap 10).1 (by decide)).2.1,
    (do_alloc_spec HFull 10).2 (by decide)⟩

/-- Claim C9: a growing `turealloc` (new size strictly above the recorded
size) whose fresh allocation fails returns null and leaves the heap — in
particular the original block's header, payload bytes and allocation
status — completely unchanged; the old block is not released. -/
theorem turealloc_grow_fail (fuel : Nat) (h : Heap) (p n : Nat) (hp : p ≠ 0)
    (hbrk : 0 < h.brk) (hgrow : (h.hdrs (p - hdrSize)).size < n)
    (hfail : (tumalloc fuel h n).2 = 0) :
    turealloc fuel h p n = some (h, 0) := by
  rw [turealloc, if_neg hp]
  dsimp only
  rw [if_neg (by omega), if_pos hfail, tumalloc_fail_eq fuel h n hbrk hfail]

/-- Witness for `turealloc_grow_fail`: growing the 10-byte block of
`HFull` (break already at the limit, so the fresh allocation fails). -/
theorem turealloc_grow_fail_witness :
    turealloc 10 HFull 300 40 = some (HFull, 0) := by
  exact turealloc_grow_fail 10 HFull 300 40 (by decide) (by decide) (by decide) (by decide)

/-- Unfolded form of `tufree` on a non-null pointer with an intact
sentinel: push the header onto the front of the free list, then coalesce. -/
theorem tufree_push_eq (fuel : Nat) (h : Heap) (ptr : Nat) (hp : ptr ≠ 0)
    (hsent : h.ints ((ptr - hdrSize) + hdrSize + (h.hdrs (ptr - hdrSize)).size) = MAGIC_NUMBER) :
    tufree fuel h ptr =
      some (coalesce fuel
        (setHEAD (setHdr h (ptr - hdrSize) ⟨(h.hdrs (ptr - hdrSize)).size, h.HEAD⟩)
          (ptr - hdrSize)) (ptr - hdrSize)).1 := by
  rw [tufree, if_neg hp]
  dsimp only
  rw [if_pos hsent]

/-- Claim C4: `tufree` of the null pointer is a no-op; for a non-null
pointer whose sentinel word (located via the size recorded in the header)
still holds `MAGIC_NUMBER`, the block is pushed onto the front of the free
list (most recently freed at the head) and `coalesce` runs on it
immediately; for any other sentinel value the process terminates
(modelled by `none`). -/
theorem tufree_spec (fuel : Nat) (h : Heap) (ptr : Nat) :
    (ptr = 0 → tufree fuel h ptr = some h)
    ∧ (ptr ≠ 0 →
        h.ints ((ptr - hdrSize) + hdrSize + (h.hdrs (ptr - hdrSize)).size) = MAGIC_NUMBER →
        tufree fuel h ptr =
          some (coalesce fuel
            (setHEAD (setHdr h (ptr - hdrSize) ⟨(h.hdrs (ptr - hdrSize)).size, h.HEAD⟩)
              (ptr - hdrSize)) (ptr - hdrSize)).1
        ∧ ∀ h', tufree fuel h ptr = some h' → h'.HEAD = ptr - hdrSize)
    ∧ (ptr ≠ 0 →
        h.ints ((ptr - hdrSize) + hdrSize + (h.hdrs (ptr - hdrSize)).size) ≠ MAGIC_NUMBER →
        tufree fuel h ptr = none) := by
  refine ⟨fun h0 => by rw [tufree, if_pos h0], fun hp hsent => ⟨tufree_push_eq fuel h ptr hp hsent, ?_⟩, fun hp hsent => ?_⟩
  · intro h' heq
    rw [tufree_push_eq fuel h ptr hp hsent] at heq
    simp only [Option.some.injEq] at heq
    rw [← heq, coalesce_HEAD]
    rfl
  · rw [tufree, if_neg hp]
    dsimp only
    rw [if_neg hsent]

/-- Witness for `tufree_spec`: the null no-op, an intact release (the
block at 1026 of `H0`, which ends at the list head afterwards), and a
corrupted release (pointer 500 of `H0`, whose sentinel word is 0). -/
theorem tufree_spec_witness :
    tufree 10 H0 0 = some H0 ∧ tufree 10 H0 500 = none ∧
    (tufree 10 H0 1042).map Heap.HEAD = some 1026 := by
  refine ⟨(tufree_spec 10 H0 0).1 rfl, (tufree_spec 10 H0 500).2.2 (by decide) (by decide), ?_⟩
  obtain ⟨he, hh⟩ := (tufree_spec 10 H0 1042).2.1 (by decide) (by decide)
  rw [he, Option.map_some']
  have := hh _ he
  rw [this]
  decide

/-- Claim C1, counterexample: in `H0` the allocated block 1026 has the
free block 1000 as physically-previous neighbor; releasing it enlarges
1000's size to 36 = 10 + 10 + 16 (the merge happened), yet the absorbed
header 1026 is still an entry — in fact the head — of the free list, and
the chain of contiguous free blocks occupies two entries, not one. -/
theorem coalesce_keeps_absorbed_header :
    (tufree 10 H0 1042).map H0obs = some (36, 1026, 1000, [1026, 1000]) := by decide

/-- Claim C8, counterexample: `tucalloc` with `num = 2^32` and
`size = 2^32 + 1` succeeds (the fixed-width product wraps to `2^32`
bytes), but the byte at offset `2^32` — inside the `num * size`-byte
region — still reads 7, not 0. -/
theorem tucalloc_overflow_region_not_zeroed :
    (tucalloc 10 H8 (2 ^ 32) (2 ^ 32 + 1)).2 = 1016 ∧
    (2 ^ 32 : Nat) < 2 ^ 32 * (2 ^ 32 + 1) ∧
    (tucalloc 10 H8 (2 ^ 32) (2 ^ 32 + 1)).1.bytes (1016 + 2 ^ 32) = 7 := by decide

/-- Claim C8, amended: `tucalloc` computes the total as the fixed-width
product `num * size mod 2^64`, delegates that total to `tumalloc`, and
zero-fills on success only; afterwards every byte of the region of that
total size reads as zero. -/
theorem tucalloc_spec (fuel : Nat) (h : Heap) (num size : Nat) :
    ((tumalloc fuel h (num * size % W)).2 ≠ 0 →
        tucalloc fuel h num size =
          (memset (tumalloc fuel h (num * size % W)).1 (tumalloc fuel h (num * size % W)).2 0
            (num * size % W), (tumalloc fuel h (num * size % W)).2)
        ∧ ∀ i, i < num * size % W →
            (tucalloc fuel h num size).1.bytes ((tumalloc fuel h (num * size % W)).2 + i) = 0)
    ∧ ((tumalloc fuel h (num * size % W)).2 = 0 →
        tucalloc fuel h num size = tumalloc fuel h (num * size % W)) := by
  constructor
  · intro hnz
    have heq : tucalloc fuel h num size =
        (memset (tumalloc fuel h (num * size % W)).1 (tumalloc fuel h (num * size % W)).2 0
          (num * size % W), (tumalloc fuel h (num * size % W)).2) := by
      rw [tucalloc]
      rw [if_pos hnz]
    refine ⟨heq, fun i hi => ?_⟩
    rw [heq]
    show (memset (tumalloc fuel h (num * size % W)).1 (tumalloc fuel h (num * size % W)).2 0
        (num * size % W)).bytes ((tumalloc fuel h (num * size % W)).2 + i) = 0
    rw [memset_bytes, if_pos ⟨Nat.le_add_right _ _, by omega⟩]
  · intro hz
    rw [tucalloc]
    rw [if_neg (by simp [hz])]

/-- Witness for `tucalloc_spec`: a 12-byte zero-allocation from the empty
heap; byte 5 of the returned region reads 0. -/
theorem tucalloc_spec_witness :
    (tumalloc 10 emptyHeap (3 * 4 % W)).2 = 4112 ∧
    (tucalloc 10 emptyHeap 3 4).1.bytes (4112 + 5) = 0 := by
  refine ⟨by decide, ?_⟩
  exact ((tucalloc_spec 10 emptyHeap 3 4).1 (by decide)).2 5 (by decide)

/-- Evaluation of a release that merges with a free physically-previous
neighbor `p` (the sole entry of the free list): `p` is enlarged, no
re-linking happens, and the absorbed header `b` stays at the head of the
list. -/
theorem tufree_prev_merge_aux (f : Nat) (h : Heap) (p b ps bs nb : Nat)
    (hp0 : p ≠ 0) (hb0 : b ≠ 0)
    (hHEAD : h.HEAD = p)
    (hph : h.hdrs p = ⟨ps, 0⟩)
    (hbh : h.hdrs b = ⟨bs, nb⟩)
    (hadj : p + ps + hdrSize = b)
    (hsent : h.ints (b + hdrSize + bs) = MAGIC_NUMBER) :
    ∃ h', tufree (f + 3) h (b + hdrSize) = some h'
      ∧ h'.hdrs p = ⟨ps + bs + hdrSize, 0⟩
      ∧ h'.HEAD = b ∧ h'.hdrs b = ⟨bs, p⟩
      ∧ freeList (f + 3) h' = [b, p]
      ∧ isChain h' h'.HEAD [b, p] = true
      ∧ h'.brk = h.brk := by
  have h16 : hdrSize = 16 := rfl
  have hpb : p ≠ b := by omega
  have hbp : b ≠ p := by omega
  have hhd : b + hdrSize - hdrSize = b := by omega
  have hsent' : h.ints ((b + hdrSize - hdrSize) + hdrSize + (h.hdrs (b + hdrSize - hdrSize)).size)
      = MAGIC_NUMBER := by
    rw [hhd, hbh]
    exact hsent
  have hpush := tufree_push_eq (f + 3) h (b + hdrSize) (by omega) hsent'
  rw [hhd] at hpush
  simp only [hbh, hHEAD] at hpush
  set e2 : Heap := setHEAD (setHdr h b ⟨bs, p⟩) b with he2
  have he2b : e2.hdrs b = ⟨bs, p⟩ := by
    rw [he2]
    simp
  have he2p : e2.hdrs p = ⟨ps, 0⟩ := by
    rw [he2]
    simp [hpb, hph]
  have he2H : e2.HEAD = b := by
    rw [he2]
    simp
  have hfp : find_prev (f + 3) e2 b = p := by
    rw [find_prev, he2H, show f + 3 = (f + 2) + 1 from rfl, find_prevAux_succ, if_neg hb0, he2b]
    dsimp only
    rw [if_neg (by omega), show f + 2 = (f + 1) + 1 from rfl, find_prevAux_succ, if_neg hp0, he2p]
    dsimp only
    rw [if_pos hadj]
  have hfn : find_next (f + 3) e2 b = 0 := by
    rw [find_next, he2H, he2b]
    dsimp only
    rw [show f + 3 = (f + 2) + 1 from rfl, find_nextAux_succ, if_neg hb0,
      if_neg (by omega : ¬(b = b + bs + hdrSize)), he2b]
    dsimp only
    rw [show f + 2 = (f + 1) + 1 from rfl, find_nextAux_succ, if_neg hp0,
      if_neg (by omega : ¬(p = b + bs + hdrSize)), he2p]
    dsimp only
    rw [show f + 1 = f + 1 from rfl, find_nextAux_succ, if_pos rfl]
  have hco : coalesce (f + 3) e2 b = (setHdr e2 p ⟨ps + bs + hdrSize, 0⟩, p) := by
    rw [coalesce, if_neg hb0]
    dsimp only
    rw [hfp, hfn]
    split_ifs <;> simp_all
  refine ⟨(coalesce (f + 3) e2 b).1, hpush, ?_, ?_, ?_, ?_, ?_, ?_⟩
  · rw [hco]
    simp
  · rw [hco]
    simp [he2H]
  · rw [hco]
    simp [hbp, he2b]
  · rw [freeList, hco]
    dsimp only
    have hH : (setHdr e2 p ⟨ps + bs + hdrSize, 0⟩).HEAD = b := by simp [he2H]
    rw [hH, show f + 3 = (f + 2) + 1 from rfl, freeListFrom_succ, if_neg hb0]
    have hnb' : (setHdr e2 p ⟨ps + bs + hdrSize, 0⟩).hdrs b = ⟨bs, p⟩ := by simp [hbp, he2b]
    rw [hnb']
    dsimp only
    rw [show f + 2 = (f + 1) + 1 from rfl, freeListFrom_succ, if_neg hp0]
    have hnp' : (setHdr e2 p ⟨ps + bs + hdrSize, 0⟩).hdrs p = ⟨ps + bs + hdrSize, 0⟩ := by simp
    rw [hnp']
    dsimp only
    rw [show f + 1 = f + 1 from rfl, freeListFrom_succ, if_pos rfl]
  · rw [hco]
    simp only [isChain, Bool.and_eq_true, beq_iff_eq, bne_iff_ne, ne_eq]
    have hH : (setHdr e2 p ⟨ps + bs + hdrSize, 0⟩).HEAD = b := by simp [he2H]
    have hnb' : (setHdr e2 p ⟨ps + bs + hdrSize, 0⟩).hdrs b = ⟨bs, p⟩ := by simp [hbp, he2b]
    have hnp' : (setHdr e2 p ⟨ps + bs + hdrSize, 0⟩).hdrs p = ⟨ps + bs + hdrSize, 0⟩ := by simp
    rw [hH, hnb', hnp']
    exact ⟨⟨by trivial, hb0⟩, ⟨by trivial, hp0⟩, by trivial⟩
  · rw [hco]
    rw [he2]
    rfl

/-- Claim C1, amended: releasing a block `b` whose physically-previous
neighbor `p` is free (here: `p` is the sole entry of the free list)
enlarges `p`'s size by `b`'s size plus one header size, but performs no
re-linking — the absorbed header `b` remains on the free list as its head,
pointing at `p`, so the contiguous chain occupies two free-list entries
rather than collapsing to one. -/
theorem tufree_prev_merge (f : Nat) (h : Heap) (p b ps bs nb : Nat)
    (hp0 : p ≠ 0) (hb0 : b ≠ 0)
    (hHEAD : h.HEAD = p)
    (hph : h.hdrs p = ⟨ps, 0⟩)
    (hbh : h.hdrs b = ⟨bs, nb⟩)
    (hadj : p + ps + hdrSize = b)
    (hsent : h.ints (b + hdrSize + bs) = MAGIC_NUMBER) :
    ∃ h', tufree (f + 3) h (b + hdrSize) = some h'
      ∧ h'.hdrs p = ⟨ps + bs + hdrSize, 0⟩
      ∧ h'.HEAD = b ∧ (h'.hdrs b).next = p
      ∧ freeList (f + 3) h' = [b, p] := by
  obtain ⟨h', he, h1, h2, h3, h4, _, _⟩ :=
    tufree_prev_merge_aux f h p b ps bs nb hp0 hb0 hHEAD hph hbh hadj hsent
  exact ⟨h', he, h1, h2, by rw [h3], h4⟩

/-- Witness for `tufree_prev_merge`: the concrete state `H0` (free block
1000 of size 10, allocated neighbor 1026 of size 10). -/
theorem tufree_prev_merge_witness :
    (tufree 10 H0 1042).map C1obs = some (⟨36, 0⟩, 1026, 1000, [1026, 1000]) := by
  obtain ⟨h', he, hhp, hH, hbn, hfl⟩ := tufree_prev_merge 7 H0 1000 1026 10 10 0
    (by decide) (by decide) (by decide) (by decide) (by decide) (by decide) (by decide)
  have he' : tufree 10 H0 1042 = some h' := he
  have hfl' : freeList 10 h' = [1026, 1000] := hfl
  rw [he', Option.map_some']
  simp only [C1obs]
  rw [hhp, hH, hbn, hfl']
  rfl

/-- Replacing the list entry after a prefix `xs`: if `h\'` agrees with `h`
on the links along `xs` except at the prefix\'s last element, which now
points at `rem`, and `rem` continues into the old tail, the traversal of
`h\'` yields `xs` followed by `rem` and the old tail. -/
theorem isChain_replace (h h' : Heap) (c rem : Nat) (ys : List Nat)
    (hys : isChain h' (h.hdrs c).next ys = true)
    (hrem0 : rem ≠ 0)
    (hremnext : (h'.hdrs rem).next = (h.hdrs c).next) :
    ∀ (xs : List Nat) (a : Nat),
      xs ≠ [] →
      xs.Nodup →
      isChain h a (xs ++ c :: ys) = true →
      (∀ x ∈ xs, x ≠ xs.getLastD 0 → (h'.hdrs x).next = (h.hdrs x).next) →
      (h'.hdrs (xs.getLastD 0)).next = rem →
      isChain h' a (xs ++ rem :: ys) = true := by
  intro xs
  induction xs with
  | nil => intro a hne; exact absurd rfl hne
  | cons x xs ih =>
    intro a _ hnd hch hag hlast
    simp only [List.cons_append, isChain, Bool.and_eq_true, beq_iff_eq, bne_iff_ne, ne_eq]
      at hch ⊢
    obtain ⟨⟨heq, hx0⟩, hrest⟩ := hch
    refine ⟨⟨heq, hx0⟩, ?_⟩
    cases xs with
    | nil =>
      have hxlast : (x :: ([] : List Nat)).getLastD 0 = x := by
        rw [List.getLastD_cons, List.getLastD_nil]
      rw [hxlast] at hlast
      rw [hlast]
      simp only [List.nil_append, isChain, Bool.and_eq_true, beq_iff_eq, bne_iff_ne, ne_eq]
        at hrest ⊢
      exact ⟨⟨trivial, hrem0⟩, by rw [hremnext]; exact hys⟩
    | cons y xs' =>
      have hlast' : (x :: y :: xs').getLastD 0 = (y :: xs').getLastD 0 := by
        simp only [List.getLastD_cons]
      have hmem : (y :: xs').getLastD 0 ∈ y :: xs' := by
        rw [List.getLastD_cons]
        exact List.getLastD_mem_cons xs' y
      have hxne : x ≠ (y :: xs').getLastD 0 := by
        intro hcontra
        exact (List.nodup_cons.mp hnd).1 (hcontra ▸ hmem)
      have hxnext : (h'.hdrs x).next = (h.hdrs x).next := by
        refine hag x (List.mem_cons_self x _) ?_
        rw [hlast']
        exact hxne
      rw [hxnext]
      simp only [isChain, Bool.and_eq_true, beq_iff_eq, bne_iff_ne, ne_eq] at hrest
      refine ih (h.hdrs x).next (by simp) (List.nodup_cons.mp hnd).2 ?_ ?_ ?_
      · simpa [isChain] using hrest
      · intro z hz hzne
        refine hag z (List.mem_cons_of_mem x hz) ?_
        rw [hlast']
        exact hzne
      · rw [← hlast']
        exact hlast

/-- Walking a chain past a prefix `xs` reaches `c`, whose link continues
the tail; `c` itself is nonzero. -/
theorem isChain_tail_after (h : Heap) (c : Nat) (ys : List Nat) :
    ∀ (xs : List Nat) (a : Nat), isChain h a (xs ++ c :: ys) = true →
      isChain h (h.hdrs c).next ys = true ∧ c ≠ 0 := by
  intro xs
  induction xs with
  | nil =>
    intro a hch
    simp only [List.nil_append, isChain, Bool.and_eq_true, beq_iff_eq, bne_iff_ne, ne_eq] at hch
    exact ⟨hch.2, hch.1.2⟩
  | cons x xs ih =>
    intro a hch
    simp only [List.cons_append, isChain, Bool.and_eq_true, beq_iff_eq, bne_iff_ne, ne_eq] at hch
    exact ih (h.hdrs x).next hch.2

/-- Evaluation of a release with no free physical neighbor: the freed
block is pushed onto the front of the free list and coalesce changes
nothing. -/
theorem tufree_no_merge (fuel : Nat) (h : Heap) (hd : Nat) (l : List Nat)
    (hhd0 : hd ≠ 0)
    (hch : isChain h h.HEAD l = true)
    (hnotin : hd ∉ l)
    (hlen : l.length + 1 < fuel)
    (hsent : h.ints (hd + hdrSize + (h.hdrs hd).size) = MAGIC_NUMBER)
    (hprev : ∀ x ∈ l, x + (h.hdrs x).size + hdrSize ≠ hd)
    (hnext : ∀ x ∈ l, x ≠ hd + (h.hdrs hd).size + hdrSize) :
    tufree fuel h (hd + hdrSize) =
      some (setHEAD (setHdr h hd ⟨(h.hdrs hd).size, h.HEAD⟩) hd) := by
  have h16 : hdrSize = 16 := rfl
  have hhd : hd + hdrSize - hdrSize = hd := by omega
  have hsent' : h.ints ((hd + hdrSize - hdrSize) + hdrSize + (h.hdrs (hd + hdrSize - hdrSize)).size)
      = MAGIC_NUMBER := by
    rw [hhd]
    exact hsent
  have hpush := tufree_push_eq fuel h (hd + hdrSize) (by omega) hsent'
  rw [hhd] at hpush
  set e : Heap := setHEAD (setHdr h hd ⟨(h.hdrs hd).size, h.HEAD⟩) hd with he
  have heh : e.hdrs hd = ⟨(h.hdrs hd).size, h.HEAD⟩ := by
    rw [he]
    simp
  have hark : ∀ x ∈ l, e.hdrs x = h.hdrs x := by
    intro x hx
    rw [he]
    simp [show x ≠ hd from fun hcontra => hnotin (hcontra ▸ hx)]
  have hech : isChain e hd (hd :: l) = true := by
    simp only [isChain, Bool.and_eq_true, beq_iff_eq, bne_iff_ne, ne_eq]
    refine ⟨⟨by trivial, hhd0⟩, ?_⟩
    rw [heh]
    exact isChain_ext h e l (fun x hx => by rw [hark x hx]) _ hch
  have heH : e.HEAD = hd := by
    rw [he]
    rfl
  have hfp : find_prev fuel e hd = 0 := by
    rw [find_prev, heH]
    refine find_prevAux_none e hd (hd :: l) hd fuel hech (by simpa using hlen) ?_
    intro x hx
    rcases List.mem_cons.mp hx with rfl | hx
    · rw [heh]
      dsimp only
      omega
    · rw [hark x hx]
      exact hprev x hx
  have hfn : find_next fuel e hd = 0 := by
    rw [find_next, heH, heh]
    dsimp only
    refine find_nextAux_none e (hd + (h.hdrs hd).size + hdrSize) (hd :: l) hd fuel hech
      (by simpa using hlen) ?_
    intro x hx
    rcases List.mem_cons.mp hx with rfl | hx
    · omega
    · exact hnext x hx
  have hco : coalesce fuel e hd = (e, hd) := by
    rw [coalesce, if_neg hhd0]
    dsimp only
    rw [hfp, hfn]
    simp
  rw [hpush, hco]

/-- Claim C10: releasing a block with no free physical neighbor leaves
its recorded size unchanged — the sentinel's bytes are never added back
into `size`; consequently, under the adjacency relation
`addr + header + size = next-addr` used by the neighbor locators, two
blocks obtained by consecutive heap extensions are never physically
adjacent: the sentinel word lies between the first payload's end and the
second header. -/
theorem tufree_frame_and_adjacency :
    (∀ (fuel : Nat) (h : Heap) (hd : Nat) (l : List Nat),
      hd ≠ 0 →
      isChain h h.HEAD l = true →
      hd ∉ l →
      l.length + 1 < fuel →
      h.ints (hd + hdrSize + (h.hdrs hd).size) = MAGIC_NUMBER →
      (∀ x ∈ l, x + (h.hdrs x).size + hdrSize ≠ hd) →
      (∀ x ∈ l, x ≠ hd + (h.hdrs hd).size + hdrSize) →
      ∃ h', tufree fuel h (hd + hdrSize) = some h'
        ∧ (h'.hdrs hd).size = (h.hdrs hd).size)
    ∧ (∀ (h : Heap) (s1 s2 : Nat),
      0 < h.brk →
      (do_alloc h s1).2 ≠ 0 →
      (do_alloc (do_alloc h s1).1 s2).2 ≠ 0 →
      ((do_alloc (do_alloc h s1).1 s2).1.hdrs (do_alloc h s1).2).size = s1
      ∧ (do_alloc h s1).2 + ((do_alloc (do_alloc h s1).1 s2).1.hdrs (do_alloc h s1).2).size
          + hdrSize ≠ (do_alloc (do_alloc h s1).1 s2).2) := by
  constructor
  · intro fuel h hd l hhd0 hch hnotin hlen hsent hprev hnext
    refine ⟨_, tufree_no_merge fuel h hd l hhd0 hch hnotin hlen hsent hprev hnext, ?_⟩
    simp
  · intro h s1 s2 hbrk hs1 hs2
    have h16 : hdrSize = 16 := rfl
    have hi4 : intSize = 4 := rfl
    by_cases hlim1 : h.brkLimit < h.brk + (s1 + hdrSize + intSize)
    · exfalso
      apply hs1
      rw [do_alloc, if_pos hlim1]
    · have hda1 : do_alloc h s1 =
          (setHdr (setBrk h (h.brk + (s1 + hdrSize + intSize))) h.brk ⟨s1, 0⟩, h.brk) := by
        rw [do_alloc, if_neg hlim1]
      rw [hda1]
      dsimp only
      set A : Heap := setHdr (setBrk h (h.brk + (s1 + hdrSize + intSize))) h.brk ⟨s1, 0⟩ with hA
      have hAbrk : A.brk = h.brk + (s1 + hdrSize + intSize) := by rw [hA]; rfl
      by_cases hlim2 : A.brkLimit < A.brk + (s2 + hdrSize + intSize)
      · exfalso
        apply hs2
        rw [hda1]
        dsimp only
        rw [do_alloc, if_pos hlim2]
      · have hda2 : do_alloc A s2 =
            (setHdr (setBrk A (A.brk + (s2 + hdrSize + intSize))) A.brk ⟨s2, 0⟩, A.brk) := by
          rw [do_alloc, if_neg hlim2]
        rw [hda2]
        dsimp only
        have hread : (setHdr (setBrk A (A.brk + (s2 + hdrSize + intSize))) A.brk ⟨s2, 0⟩).hdrs
            h.brk = ⟨s1, 0⟩ := by
          rw [setHdr_hdrs, if_neg (by rw [hAbrk]; omega), setBrk_hdrs, hA, setHdr_hdrs,
            if_pos rfl]
        rw [hread]
        dsimp only
        rw [hAbrk]
        omega

/-- Witness for `tufree_frame_and_adjacency`: releasing the isolated
block 1000 of `HFrame` keeps its recorded size 10, and two consecutive
heap extensions from the empty heap (payloads 5 and 7) yield non-adjacent
blocks: 4096 + 5 + 16 = 4117 is not the address 4121 of the second block. -/
theorem tufree_frame_and_adjacency_witness :
    C10obs = some 10
    ∧ ((do_alloc (do_alloc emptyHeap 5).1 7).1.hdrs 4096).size = 5
    ∧ (4096 : Nat) + 5 + hdrSize ≠ (do_alloc (do_alloc emptyHeap 5).1 7).2 := by
  obtain ⟨h', he, hs⟩ := tufree_frame_and_adjacency.1 10 HFrame 1000 [] (by decide) (by decide)
    (by simp) (by decide) (by decide) (by simp) (by simp)
  obtain ⟨hA, hB⟩ := tufree_frame_and_adjacency.2 emptyHeap 5 7 (by decide) (by decide)
    (by decide)
  refine ⟨?_, hA, hB⟩
  have he' : tufree 10 HFrame 1016 = some h' := he
  rw [C10obs, he', Option.map_some', hs]
  rfl

/-! ## The primed first-fit scan: machinery and the amended claim C5 -/

/-- Step equation for the primed first-fit loop. -/
theorem tumalloc_loop_succ' (f : Nat) (h : Heap) (size curr prev : Nat) :
    tumalloc_loop' (f + 1) h size curr prev =
      if curr = 0 then (h, none)
      else
        if size ≤ (h.hdrs curr).size then
          if (h.hdrs curr).size < size + hdrSize then
            tumalloc_loop' f h size (h.hdrs curr).next curr
          else
            let s := split h curr size
            let h1 := s.1
            let header := s.2
            if header = 0 then (h1, some 0)
            else
              let h2 := if prev ≠ 0 then setHdr h1 prev ⟨(h1.hdrs prev).size, (h1.hdrs curr).next⟩
                        else setHEAD h1 (h1.hdrs curr).next
              let h3 := setHdr h2 header ⟨size, (h2.hdrs header).next⟩
              let h4 := setInt32 h3 (header + hdrSize + size) MAGIC_NAT
              (h4, some (header + hdrSize))
        else
          tumalloc_loop' f h size (h.hdrs curr).next curr := rfl

/-- Unfolded form of the primed `tumalloc`. -/
theorem tumalloc_eq' (fuel : Nat) (h : Heap) (size : Nat) :
    tumalloc' fuel h size =
      if h.HEAD = 0 then
        (if (do_alloc h size).2 = 0 then ((do_alloc h size).1, 0)
         else (setInt32 (do_alloc h size).1 ((do_alloc h size).2 + hdrSize + size) MAGIC_NAT,
               (do_alloc h size).2 + hdrSize))
      else
        (match tumalloc_loop' fuel h size h.HEAD 0 with
         | (h1, some p) => (h1, p)
         | (h1, none) =>
           if (do_alloc h1 size).2 = 0 then ((do_alloc h1 size).1, 0)
           else (setInt32 (do_alloc h1 size).1 ((do_alloc h1 size).2 + hdrSize + size) MAGIC_NAT,
                 (do_alloc h1 size).2 + hdrSize)) := rfl

/-- Field values of `allocFound'`: the exact-fit half keeps address `c`
with size set to the request and its link pointing at the remainder. -/
theorem allocFound_hdrs_c' (h : Heap) (c size p : Nat)
    (hge : size + hdrSize ≤ (h.hdrs c).size) (hpc : p ≠ c) :
    (allocFound' h c size p).hdrs c = ⟨size, c + size + hdrSize⟩ := by
  have h16 : hdrSize = 16 := rfl
  unfold allocFound' setInt32
  rw [split, if_neg (by omega)]
  dsimp only
  rw [show c + hdrSize + size = c + size + hdrSize from by omega]
  by_cases hp : p ≠ 0 <;>
    simp [hp, hpc, Ne.symm hpc, show ¬(c = c + size + hdrSize) from by omega]

/-- Field values of `allocFound'`: the remainder starts one header past
the exact-fit half and inherits the link of the original block, but the
sentinel write has replaced the low 32 bits of its size field with the
sentinel constant. -/
theorem allocFound_hdrs_rem' (h : Heap) (c size p : Nat)
    (hge : size + hdrSize ≤ (h.hdrs c).size) (hpr : p ≠ c + size + hdrSize) :
    (allocFound' h c size p).hdrs (c + size + hdrSize) =
      ⟨((h.hdrs c).size - size - hdrSize) - ((h.hdrs c).size - size - hdrSize) % W32
          + MAGIC_NAT, (h.hdrs c).next⟩ := by
  have h16 : hdrSize = 16 := rfl
  unfold allocFound' setInt32
  rw [split, if_neg (by omega)]
  dsimp only
  rw [show c + hdrSize + size = c + size + hdrSize from by omega]
  by_cases hp : p ≠ 0 <;>
    simp [hp, hpr, Ne.symm hpr, show ¬(c + size + hdrSize = c) from by omega]

/-- Field values of `allocFound'`: the list predecessor `p` keeps its
size and is re-linked to the remainder. -/
theorem allocFound_hdrs_p' (h : Heap) (c size p : Nat)
    (hge : size + hdrSize ≤ (h.hdrs c).size) (hp0 : p ≠ 0) (hpc : p ≠ c)
    (hpr : p ≠ c + size + hdrSize) :
    (allocFound' h c size p).hdrs p = ⟨(h.hdrs p).size, c + size + hdrSize⟩ := by
  have h16 : hdrSize = 16 := rfl
  unfold allocFound' setInt32
  rw [split, if_neg (by omega)]
  dsimp only
  rw [show c + hdrSize + size = c + size + hdrSize from by omega]
  simp [hp0, hpc, hpr]

/-- Field values of `allocFound'`: all other headers are untouched. -/
theorem allocFound_hdrs_other' (h : Heap) (c size p x : Nat)
    (hge : size + hdrSize ≤ (h.hdrs c).size) (hxc : x ≠ c)
    (hxr : x ≠ c + size + hdrSize) (hxp : x ≠ p) :
    (allocFound' h c size p).hdrs x = h.hdrs x := by
  have h16 : hdrSize = 16 := rfl
  unfold allocFound' setInt32
  rw [split, if_neg (by omega)]
  dsimp only
  rw [show c + hdrSize + size = c + size + hdrSize from by omega]
  by_cases hp : p ≠ 0 <;> simp [hp, hxc, hxr, hxp]

/-- List head after `allocFound'` with a non-null predecessor:
unchanged. -/
theorem allocFound_HEAD_p' (h : Heap) (c size p : Nat)
    (hge : size + hdrSize ≤ (h.hdrs c).size) (hp0 : p ≠ 0) :
    (allocFound' h c size p).HEAD = h.HEAD := by
  unfold allocFound' setInt32
  rw [split, if_neg (by omega)]
  dsimp only
  simp [hp0]

/-- List head after `allocFound'` when the candidate was the head: the
remainder becomes the new head. -/
theorem allocFound_HEAD_0' (h : Heap) (c size : Nat)
    (hge : size + hdrSize ≤ (h.hdrs c).size) :
    (allocFound' h c size 0).HEAD = c + size + hdrSize := by
  unfold allocFound' setInt32
  rw [split, if_neg (by omega)]
  simp

/-- Function `allocFound'` never moves the break pointer. -/
theorem allocFound_brk' (h : Heap) (c size p : Nat) :
    (allocFound' h c size p).brk = h.brk := by
  unfold allocFound' setInt32
  rw [split]
  split <;> dsimp only <;> split <;> rfl

/-- The primed first-fit loop on a chain whose prefix `xs` holds only
candidates with insufficient excess (below one header size) and whose
next entry `c` has sufficient excess: every prefix candidate is skipped,
and `c` is split, re-linked and returned. -/
theorem tumalloc_loop_found' (h : Heap) (size : Nat) (c : Nat) (ys : List Nat)
    (hc : size + hdrSize ≤ (h.hdrs c).size) :
    ∀ (xs : List Nat) (fuel curr prev : Nat),
    isChain h curr (xs ++ c :: ys) = true →
    (∀ x ∈ xs, (h.hdrs x).size < size + hdrSize) →
    xs.length < fuel →
    tumalloc_loop' fuel h size curr prev =
      (allocFound' h c size (xs.getLastD prev), some (c + hdrSize)) := by
  intro xs
  induction xs with
  | nil =>
    intro fuel curr prev hch hxs hlen
    cases fuel with
    | zero => simp at hlen
    | succ f =>
      simp only [List.nil_append, isChain, Bool.and_eq_true, beq_iff_eq, bne_iff_ne, ne_eq] at hch
      obtain ⟨⟨heq, hc0⟩, hrest⟩ := hch
      rw [tumalloc_loop_succ', heq, if_neg hc0, if_pos (by omega), if_neg (by omega)]
      have hsp : (split h c size).2 = c := by rw [split, if_neg (by omega)]
      rw [List.getLastD_nil]
      dsimp only
      rw [hsp, if_neg hc0]
      unfold allocFound'
      dsimp only
  | cons x xs ih =>
    intro fuel curr prev hch hxs hlen
    cases fuel with
    | zero => simp at hlen
    | succ f =>
      simp only [List.cons_append, isChain, Bool.and_eq_true, beq_iff_eq, bne_iff_ne, ne_eq] at hch
      obtain ⟨⟨heq, hx0⟩, hrest⟩ := hch
      have hxsx := hxs x (List.mem_cons_self x xs)
      rw [tumalloc_loop_succ', heq, if_neg hx0, if_pos hxsx, ite_self,
        List.getLastD_cons]
      simp only [List.length_cons] at hlen
      exact ih f (h.hdrs x).next x hrest (fun y hy => hxs y (List.mem_cons_of_mem x hy))
        (by omega)

/-- After `allocFound'`, the free-list traversal yields the old list with
the found candidate `c` replaced, in place, by the remainder block. -/
theorem allocFound_chain' (h : Heap) (size c : Nat) (xs ys : List Nat)
    (hch : isChain h h.HEAD (xs ++ c :: ys) = true)
    (hnd : (xs ++ c :: ys).Nodup)
    (hrem : (c + size + hdrSize) ∉ xs ++ c :: ys)
    (hc : size + hdrSize ≤ (h.hdrs c).size) :
    isChain (allocFound' h c size (xs.getLastD 0))
      (allocFound' h c size (xs.getLastD 0)).HEAD
      (xs ++ (c + size + hdrSize) :: ys) = true := by
  have h16 : hdrSize = 16 := rfl
  obtain ⟨hys, hc0⟩ := isChain_tail_after h c ys xs h.HEAD hch
  have hrem0 : c + size + hdrSize ≠ 0 := by omega
  have hcrem : c ≠ c + size + hdrSize := by omega
  have hdisj : xs.Disjoint (c :: ys) := List.disjoint_of_nodup_append hnd
  have hcxs : c ∉ xs := fun hx => hdisj hx (List.mem_cons_self c ys)
  have hcys : c ∉ ys := by
    have := hnd.of_append_right
    exact (List.nodup_cons.mp this).1
  have hremxs : c + size + hdrSize ∉ xs := fun hx => hrem (List.mem_append_left _ hx)
  have hremys : c + size + hdrSize ∉ ys :=
    fun hx => hrem (List.mem_append_right _ (List.mem_cons_of_mem c hx))
  have hpne : ∀ y ∈ ys, y ≠ xs.getLastD 0 := by
    intro y hy
    cases xs with
    | nil =>
      rw [List.getLastD_nil]
      exact isChain_ne_zero h ys _ hys y hy
    | cons x xs' =>
      intro hcontra
      have hpmem : (x :: xs').getLastD 0 ∈ x :: xs' := by
        rw [List.getLastD_cons]
        exact List.getLastD_mem_cons xs' x
      rw [hcontra] at hy
      exact hdisj hpmem (List.mem_cons_of_mem c hy)
  have hprem : xs.getLastD 0 ≠ c + size + hdrSize := by
    cases xs with
    | nil =>
      rw [List.getLastD_nil]
      omega
    | cons x xs' =>
      intro hcontra
      have hpmem : (x :: xs').getLastD 0 ∈ x :: xs' := by
        rw [List.getLastD_cons]
        exact List.getLastD_mem_cons xs' x
      rw [hcontra] at hpmem
      exact hremxs hpmem
  have hysext : isChain (allocFound' h c size (xs.getLastD 0)) (h.hdrs c).next ys = true := by
    refine isChain_ext h _ ys (fun y hy => ?_) _ hys
    rw [allocFound_hdrs_other' h c size _ y hc (fun hcontra => hcys (hcontra ▸ hy))
      (fun hcontra => hremys (hcontra ▸ hy)) (fun hcontra => (hpne y hy) hcontra)]
  have hremnext : ((allocFound' h c size (xs.getLastD 0)).hdrs (c + size + hdrSize)).next
      = (h.hdrs c).next := by
    rw [allocFound_hdrs_rem' h c size _ hc (fun hcontra => hprem hcontra)]
  cases xs with
  | nil =>
    rw [List.getLastD_nil, allocFound_HEAD_0' h c size hc]
    simp only [List.nil_append, isChain, Bool.and_eq_true, beq_iff_eq, bne_iff_ne, ne_eq]
    refine ⟨⟨trivial, hrem0⟩, ?_⟩
    rw [List.getLastD_nil] at hremnext
    rw [hremnext]
    rw [List.getLastD_nil] at hysext
    exact hysext
  | cons x xs' =>
    have hpmem : (x :: xs').getLastD 0 ∈ x :: xs' := by
      rw [List.getLastD_cons]
      exact List.getLastD_mem_cons xs' x
    have hp0 : (x :: xs').getLastD 0 ≠ 0 :=
      isChain_ne_zero h _ _ hch _ (List.mem_append_left _ hpmem)
    have hpc : (x :: xs').getLastD 0 ≠ c := fun hcontra =>
      hcxs (hcontra ▸ hpmem)
    rw [allocFound_HEAD_p' h c size _ hc hp0]
    refine isChain_replace h _ c (c + size + hdrSize) ys hysext hrem0 hremnext
      (x :: xs') h.HEAD (by simp) hnd.of_append_left hch ?_ ?_
    · intro z hz hzne
      rw [allocFound_hdrs_other' h c size _ z hc
        (fun hcontra => hcxs (hcontra ▸ hz))
        (fun hcontra => hremxs (hcontra ▸ hz)) hzne]
    · rw [allocFound_hdrs_p' h c size _ hc hp0 hpc hprem]

/-- Claim C5, amended: `tumalloc` performs a linear first-fit scan of the
free list; every candidate in the scanned prefix whose size is at least
the request but whose excess is below one header size is skipped (an
exact-size match is always skipped, since its excess is 0); the first
candidate `c` with sufficient excess is split, the remainder (one header
past `c`, inheriting the link of `c`) replaces `c` in place in the list,
and `c` — now recording exactly the requested size — is removed from the
list and its payload pointer returned.  Contrary to the original claim,
the remainder does not carry the leftover size: the sentinel word of the
new allocation is stored at the address of the remainder header itself
and replaces the low 32 bits of its size field with the sentinel
constant. -/
theorem tumalloc_first_fit' (fuel : Nat) (h : Heap) (size : Nat) (xs ys : List Nat) (c : Nat)
    (hch : isChain h h.HEAD (xs ++ c :: ys) = true)
    (hnd : (xs ++ c :: ys).Nodup)
    (hrem : (c + size + hdrSize) ∉ xs ++ c :: ys)
    (hxs : ∀ x ∈ xs, (h.hdrs x).size < size + hdrSize)
    (hc : size + hdrSize ≤ (h.hdrs c).size)
    (hlen : xs.length < fuel) :
    (tumalloc' fuel h size).2 = c + hdrSize
    ∧ (tumalloc' fuel h size).1.hdrs c = ⟨size, c + size + hdrSize⟩
    ∧ (tumalloc' fuel h size).1.hdrs (c + size + hdrSize) =
        ⟨((h.hdrs c).size - size - hdrSize) - ((h.hdrs c).size - size - hdrSize) % W32
            + MAGIC_NAT, (h.hdrs c).next⟩
    ∧ isChain (tumalloc' fuel h size).1 (tumalloc' fuel h size).1.HEAD
        (xs ++ (c + size + hdrSize) :: ys) = true
    ∧ c ∉ xs ++ (c + size + hdrSize) :: ys := by
  have h16 : hdrSize = 16 := rfl
  obtain ⟨hys, hc0⟩ := isChain_tail_after h c ys xs h.HEAD hch
  have hdisj : xs.Disjoint (c :: ys) := List.disjoint_of_nodup_append hnd
  have hcxs : c ∉ xs := fun hx => hdisj hx (List.mem_cons_self c ys)
  have hcys : c ∉ ys := by
    have := hnd.of_append_right
    exact (List.nodup_cons.mp this).1
  have hremxs : c + size + hdrSize ∉ xs := fun hx => hrem (List.mem_append_left _ hx)
  have hpc : xs.getLastD 0 ≠ c := by
    cases xs with
    | nil =>
      rw [List.getLastD_nil]
      exact Ne.symm hc0
    | cons x xs' =>
      intro hcontra
      have hpmem : (x :: xs').getLastD 0 ∈ x :: xs' := by
        rw [List.getLastD_cons]
        exact List.getLastD_mem_cons xs' x
      exact hcxs (hcontra ▸ hpmem)
  have hprem : xs.getLastD 0 ≠ c + size + hdrSize := by
    cases xs with
    | nil =>
      rw [List.getLastD_nil]
      omega
    | cons x xs' =>
      intro hcontra
      have hpmem : (x :: xs').getLastD 0 ∈ x :: xs' := by
        rw [List.getLastD_cons]
        exact List.getLastD_mem_cons xs' x
      exact hremxs (hcontra ▸ hpmem)
  have hH0 : h.HEAD ≠ 0 := by
    cases xs with
    | nil =>
      simp only [List.nil_append, isChain, Bool.and_eq_true, beq_iff_eq, bne_iff_ne, ne_eq] at hch
      rw [hch.1.1]
      exact hch.1.2
    | cons x xs' =>
      simp only [List.cons_append, isChain, Bool.and_eq_true, beq_iff_eq, bne_iff_ne, ne_eq] at hch
      rw [hch.1.1]
      exact hch.1.2
  have hloop := tumalloc_loop_found' h size c ys hc xs fuel h.HEAD 0 hch hxs hlen
  have htm : tumalloc' fuel h size = (allocFound' h c size (xs.getLastD 0), c + hdrSize) := by
    rw [tumalloc_eq', if_neg hH0, hloop]
  refine ⟨by rw [htm], ?_, ?_, ?_, ?_⟩
  · rw [htm]
    exact allocFound_hdrs_c' h c size _ hc hpc
  · rw [htm]
    exact allocFound_hdrs_rem' h c size _ hc hprem
  · rw [htm]
    exact allocFound_chain' h size c xs ys hch hnd hrem hc
  · simp only [List.mem_append, List.mem_cons]
    push_neg
    exact ⟨hcxs, by omega, hcys⟩

/-- Witness for `tumalloc_first_fit'`: allocating 10 bytes from `HC5`
skips the exact-size block 2000 and splits block 1000 (size 50); the
remainder at 1026 inherits the null link, and its size field reads the
sentinel constant 19088743, not the leftover 24. -/
theorem tumalloc_first_fit_witness' :
    (tumalloc' 10 HC5 10).2 = 1016
    ∧ (tumalloc' 10 HC5 10).1.hdrs 1000 = ⟨10, 1026⟩
    ∧ (tumalloc' 10 HC5 10).1.hdrs 1026 = ⟨19088743, 0⟩
    ∧ isChain (tumalloc' 10 HC5 10).1 (tumalloc' 10 HC5 10).1.HEAD [2000, 1026] = true
    ∧ 1000 ∉ [2000, 1026] := by
  obtain ⟨h1, h2, h3, h4, h5⟩ := tumalloc_first_fit' 10 HC5 10 [2000] [] 1000
    (by decide) (by decide) (by decide) (by decide) (by decide) (by decide)
  exact ⟨h1, h2, Eq.trans h3 (by decide), h4, by decide⟩

/-- Claim C5, counterexample: allocating 10 bytes from `HC5` splits block
1000 (size 50); the original claim (following spec 4.2) says the
remainder at 1026 records the leftover size 24 = 50 - 10 - 16, but the
sentinel word of the new allocation is written at the address of the
remainder header, so the remainder records 19088743 (the sentinel
constant), not 24. -/
theorem split_remainder_clobbered :
    (tumalloc' 10 HC5 10).2 = 1016
    ∧ (tumalloc' 10 HC5 10).1.hdrs 1000 = ⟨10, 1026⟩
    ∧ (tumalloc' 10 HC5 10).1.hdrs 1026 = ⟨19088743, 0⟩
    ∧ (HC5.hdrs 1000).size - 10 - hdrSize = 24
    ∧ freeList 10 (tumalloc' 10 HC5 10).1 = [2000, 1026] := by decide

/-- Claim C3, code-bug evaluation: the claim (and spec 3) says the free
list never holds duplicate entries in any reachable state.  After the
six-call trace of `C3state` the free-list head 4216 links to itself, so
the traversal yields the same block at consecutive positions.  Cause: the
allocation of 78 bytes splits the free block at 4122, whose size field
had been overwritten with the sentinel constant by an earlier sentinel
store; the remainder of that split lands exactly on the other free-list
entry 4216 (4122 + 78 + 16 = 4216), which at that moment is also the
predecessor of the scan, so the re-link of alloc.c lines 194-198 makes
4216 point at itself. -/
theorem free_list_duplicate_reachable :
    C3obs = some (4216, 19088743, 4216, [4216, 4216, 4216]) := by decide

/-- Claim C6, code-bug evaluation: the claim says growing a block copies
its contents into a fresh block, releases the old one and returns the new
pointer.  In the state of `C6pre` the block at payload pointer 4112
records size 10, so growing it to 20 bytes takes the allocate-copy-free
path — and aborts: the fresh 20-byte block is carved from the free block
at 4122, the very address of the sentinel word of block 4112, so the
integrity check of the release step no longer reads the sentinel constant
there and the program calls abort (modelled as a `none` result). -/
theorem turealloc_clobbered_sentinel_aborts :
    C6obs = some (10, 4122, 19088743) ∧ C6run.isSome = false := by decide

/-- Claim C7, code-bug evaluation: the claim says that after two
physically adjacent blocks are both released, their coalesced region
satisfies a request of the combined size without growing the heap.  In
the state of `C7pre` the two adjacent allocated blocks 4096 and 4122
(sizes 10 and 10, 4096 + 10 + hdrSize = 4122) cannot even both be
released: the sentinel word of the first block lives at 4122 — the header
of the second block — so releasing the first aborts on the integrity
check immediately, and also after the second has been released (the check
then reads the coalesced size 19088769, not the sentinel constant). -/
theorem adjacent_release_aborts :
    C7obs = some (10, 10, 4148, [4148])
    ∧ (4096 : Nat) + 10 + hdrSize = 4122
    ∧ C7freeA.isSome = false ∧ C7freeBA.isSome = false := by decide
